import Mathlib

/-!
Verification development for the weekly-generator repository.

Shallow embedding of the three core components:
* the time-windowed message harvester (src/utils.py, fetch_messages_from_past),
* the deal-state classifier (summary_generator.py, fetch_recent_pipedrive_deals
  and its collaborator wrappers),
* the markdown block compiler (src/notion_utils.py, parse_rich_text_with_links
  and convert_markdown_to_blocks).

Modelling conventions:
* Python strings are Lean `String`s; comparisons the Python code performs on
  strings (lexicographic by code point) are modelled by executable
  comparisons on `List Char`.
* `datetime` values that the code renders with `isoformat()` and then sorts /
  compares are modelled as `Nat` instants for the harvester: ISO-8601 UTC
  strings of a fixed format compare lexicographically exactly as the
  underlying instants do.  The classifier compares raw strings, and is
  modelled with string comparisons.
* Network collaborators (Discord history pages, Pipedrive responses) are
  inputs: a paged message feed is a `List (List RawMessage)`, a CRM response
  is an `Except Unit _` (`.error` models a request fault / raised exception).
* Python `try/except` blocks become `Except` values caught by `match`.
-/

/-! ### Python string primitives -/

/-- ASCII lowercasing, as Python `str.lower` acts on the ASCII strings used by
the code (URLs, deal titles). -/
def asciiLower (c : Char) : Char :=
  if 65 ≤ c.toNat ∧ c.toNat ≤ 90 then Char.ofNat (c.toNat + 32) else c

/-- Python `str.lower`. -/
def lowerStr (s : String) : String := String.mk (s.data.map asciiLower)

/-- Lexicographic (code-point) `<` on character lists, Python's string `<`. -/
def charsLt : List Char → List Char → Bool
  | [], [] => false
  | [], _ :: _ => true
  | _ :: _, [] => false
  | a :: as, b :: bs => decide (a < b) || (a == b && charsLt as bs)

/-- Python string `<`. -/
def pyLt (a b : String) : Bool := charsLt a.data b.data

/-- Python string `>=` (total order: negation of `<`). -/
def pyGe (a b : String) : Bool := !pyLt a b

/-- Does `hay` contain `needle` as a contiguous substring (Python `in`)? -/
def charsHas (needle : List Char) : List Char → Bool
  | [] => needle.isEmpty
  | c :: rest => ((c :: rest).take needle.length == needle) || charsHas needle rest

/-- Python `needle in hay` on strings. -/
def strHas (hay needle : String) : Bool := charsHas needle.data hay.data

/-- Split a character list on a separator character (Python `str.split(sep)`
with a one-character separator). -/
def splitOnCharAux (sep : Char) : List Char → List Char → List (List Char)
  | [], acc => [acc.reverse]
  | c :: rest, acc =>
    if c == sep then acc.reverse :: splitOnCharAux sep rest []
    else splitOnCharAux sep rest (c :: acc)

/-- Python `s.split(' ')[0]`: the date part of a `"YYYY-MM-DD hh:mm:ss"`
timestamp string. -/
def datePart (s : String) : String :=
  String.mk ((splitOnCharAux ' ' s.data []).headD [])

/-- Characters Python `str.strip()` removes. -/
def isPySpace (c : Char) : Bool :=
  c == ' ' || c == '\t' || c == '\n' || c == '\r' || c == '\x0b' || c == '\x0c'

/-- Python `str.strip()`. -/
def trimChars (cs : List Char) : List Char :=
  ((cs.dropWhile isPySpace).reverse.dropWhile isPySpace).reverse

/-! ### URL extraction (src/utils.py, extract_urls)

The source uses `re.findall` with the pattern

  `https?://(?:www\.)?[-a-zA-Z0-9@:%._\+~#=]{1,256}\.[a-zA-Z0-9()]{1,6}\b(?:[-a-zA-Z0-9()@:%_\+.~#?&\/=]*)`

We embed the exact backtracking behaviour of this pattern: the scheme literal,
the optional greedy `www.` group, the greedy bounded first character class
(backtracking down), the literal dot, the greedy bounded second class
(backtracking down), the word-boundary check, and the greedy unbounded tail
class.  `re.findall` semantics: scan left to right, take the leftmost match,
continue after it (non-overlapping). -/

/-- First character class `[-a-zA-Z0-9@:%._\+~#=]`. -/
def isUrlC1 (c : Char) : Bool :=
  c == '-' || c.isAlpha || c.isDigit || c == '@' || c == ':' || c == '%' ||
  c == '.' || c == '_' || c == '+' || c == '~' || c == '#' || c == '='

/-- Second character class `[a-zA-Z0-9()]`. -/
def isUrlC2 (c : Char) : Bool :=
  c.isAlpha || c.isDigit || c == '(' || c == ')'

/-- Tail character class `[-a-zA-Z0-9()@:%_\+.~#?&\/=]`. -/
def isUrlC3 (c : Char) : Bool :=
  c == '-' || c.isAlpha || c.isDigit || c == '(' || c == ')' || c == '@' ||
  c == ':' || c == '%' || c == '_' || c == '+' || c == '.' || c == '~' ||
  c == '#' || c == '?' || c == '&' || c == '/' || c == '='

/-- Regex word character (`\w`), deciding the `\b` boundary. -/
def isWordCh (c : Char) : Bool := c.isAlpha || c.isDigit || c == '_'

/-- Is there a `\b` word boundary in `cs` between index `k` and index `k+1`? -/
def boundaryOk (cs : List Char) (k : Nat) : Bool :=
  match cs[k]?, cs[k+1]? with
  | some prev, some next => isWordCh prev != isWordCh next
  | some prev, none => isWordCh prev
  | none, _ => false

/-- Backtracking over the second class count (`{1,6}`, greedy, longest first):
`cs` is the text after the literal dot; the counter starts at
`min run 6` where `run` is the maximal second-class run.  On success the
returned length includes the greedy tail-class run after the boundary. -/
def tryK2 (cs : List Char) : Nat → Option Nat
  | 0 => none
  | k + 1 =>
    if boundaryOk cs k then
      some ((k + 1) + ((cs.drop (k + 1)).takeWhile isUrlC3).length)
    else tryK2 cs k

/-- Backtracking over the first class count (`{1,256}`, greedy, longest
first): for count `k+1`, the character at index `k+1` must be the literal
dot, then the rest of the pattern must match. -/
def tryK1 (cs : List Char) : Nat → Option Nat
  | 0 => none
  | k + 1 =>
    if cs[k+1]? == some '.' then
      match tryK2 (cs.drop (k + 2)) (min ((cs.drop (k + 2)).takeWhile isUrlC2).length 6) with
      | some m => some ((k + 1) + 1 + m)
      | none => tryK1 cs k
    else tryK1 cs k

/-- Match the pattern after the scheme (and after an optional `www.`). -/
def urlBody (cs : List Char) : Option Nat :=
  tryK1 cs (min ((cs.takeWhile isUrlC1).length) 256)

/-- Match the pattern after the scheme, first trying to consume a greedy
optional `www.`, backtracking to the variant without it. -/
def urlAfterScheme (cs : List Char) : Option Nat :=
  if cs.take 4 == "www.".data then
    match urlBody (cs.drop 4) with
    | some k => some (4 + k)
    | none => urlBody cs
  else urlBody cs

/-- Attempt to match the whole URL pattern at the start of `cs`; returns the
length of the match. -/
def matchUrlAt (cs : List Char) : Option Nat :=
  if cs.take 8 == "https://".data then (urlAfterScheme (cs.drop 8)).map (fun k => 8 + k)
  else if cs.take 7 == "http://".data then (urlAfterScheme (cs.drop 7)).map (fun k => 7 + k)
  else none

theorem matchUrlAt_pos {cs : List Char} {n : Nat} (h : matchUrlAt cs = some n) : 0 < n := by
  unfold matchUrlAt at h
  split at h
  · cases hu : urlAfterScheme (cs.drop 8) with
    | none => rw [hu] at h; simp at h
    | some k => rw [hu] at h; simp at h; omega
  · split at h
    · cases hu : urlAfterScheme (cs.drop 7) with
      | none => rw [hu] at h; simp at h
      | some k => rw [hu] at h; simp at h; omega
    · simp at h

/-- `re.findall`: scan left to right, collect non-overlapping leftmost
matches. -/
def findUrls : List Char → List String
  | [] => []
  | c :: rest =>
    match h : matchUrlAt (c :: rest) with
    | some n => String.mk ((c :: rest).take n) :: findUrls ((c :: rest).drop n)
    | none => findUrls rest
termination_by cs => cs.length
decreasing_by
  · have := matchUrlAt_pos h
    simp [List.length_drop]
    omega
  · simp

/-- src/utils.py `extract_urls`. -/
def extract_urls (text : String) : List String := findUrls text.data

/-! ### The message harvester (src/utils.py, fetch_messages_from_past) -/

/-- A raw platform message, the fields the harvester consumes from the chat
collaborator.  The platform message id is an integer snowflake; the Python
code stores `str(message.id)` in its records and compares raw ids with `==`;
since decimal rendering is injective we keep the integer.  `createdAt` models
`message.created_at`; the code stores `created_at.isoformat()` and sorts by
that string, which orders exactly as the underlying instants. -/
structure RawMessage where
  id : Nat
  content : String
  authorName : String
  authorBot : Bool
  createdAt : Nat
  attachments : List String
  embeds : Nat
deriving DecidableEq

/-- The harvester's per-message record (class MessageData in src/utils.py). -/
structure MessageData where
  id : Nat
  content : String
  author : String
  timestamp : Nat
  attachments : List String
  embeds : Nat
  channel_name : String
  is_thread : Bool
  thread_name : Option String
  urls : List String
deriving DecidableEq

/-- Building the record for a surviving paginated message (lines 126-142 of
src/utils.py): URLs are extracted and any URL containing "github.com"
(case-insensitively) is dropped. -/
def mkMessageData (chName : String) (isThread : Bool) (threadName : Option String)
    (m : RawMessage) : MessageData :=
  { id := m.id
    content := m.content
    author := m.authorName
    timestamp := m.createdAt
    attachments := m.attachments
    embeds := m.embeds
    channel_name := chName
    is_thread := isThread
    thread_name := if isThread then threadName else none
    urls := (extract_urls m.content).filter (fun u => !strHas (lowerStr u) "github.com") }

/-- Building the synthesized record for a thread's origin message (lines
153-170): content gets the thread-starter marker, and the URL list is the
raw extraction result (the source applies no github filter here). -/
def firstMessageData (chName : String) (isThread : Bool) (threadName : Option String)
    (m : RawMessage) : MessageData :=
  { id := m.id
    content := "[Thread Starter] " ++ m.content
    author := m.authorName
    timestamp := m.createdAt
    attachments := m.attachments
    embeds := m.embeds
    channel_name := chName
    is_thread := isThread
    thread_name := if isThread then threadName else none
    urls := extract_urls m.content }

/-- The inner `for message in fetched_messages` loop (lines 112-144): returns
the records collected from one page and whether the cutoff was crossed
(`fetch_more = False` via the mid-page `break`).  Per message, in page order:
cutoff check first, then the bot skip, then the thread-origin skip. -/
def processPage (cutoff : Nat) (chName : String) (isThread : Bool)
    (firstId : Option Nat) (threadName : Option String) :
    List RawMessage → List MessageData × Bool
  | [] => ([], false)
  | m :: rest =>
    if m.createdAt < cutoff then ([], true)
    else if m.authorBot then processPage cutoff chName isThread firstId threadName rest
    else if isThread && firstId == some m.id then
      processPage cutoff chName isThread firstId threadName rest
    else
      (mkMessageData chName isThread threadName m ::
        (processPage cutoff chName isThread firstId threadName rest).1,
       (processPage cutoff chName isThread firstId threadName rest).2)

/-- The pagination `while fetch_more` loop (lines 95-148) over the pages the
platform's `history` call yields (newest first, each page at most 100
messages — the `before` cursor plumbing is the collaborator's side).  An
empty page stops; a crossed cutoff stops; a page shorter than 100 stops after
being processed. -/
def fetchPages (cutoff : Nat) (chName : String) (isThread : Bool)
    (firstId : Option Nat) (threadName : Option String) :
    List (List RawMessage) → List MessageData
  | [] => []
  | page :: rest =>
    match page with
    | [] => []
    | _ :: _ =>
      if (processPage cutoff chName isThread firstId threadName page).2 then
        (processPage cutoff chName isThread firstId threadName page).1
      else if page.length < 100 then
        (processPage cutoff chName isThread firstId threadName page).1
      else
        (processPage cutoff chName isThread firstId threadName page).1 ++
          fetchPages cutoff chName isThread firstId threadName rest

/-- Chronological order on harvested records (the sort key of line 151). -/
def tsLe (a b : MessageData) : Prop := a.timestamp ≤ b.timestamp

instance : DecidableRel tsLe := fun a b => Nat.decLe a.timestamp b.timestamp

instance : IsTrans MessageData tsLe := ⟨fun _ _ _ => Nat.le_trans⟩

instance : IsTotal MessageData tsLe := ⟨fun a b => Nat.le_total a.timestamp b.timestamp⟩

/-- src/utils.py `fetch_messages_from_past`.  `pages` is the paged history the
chat collaborator returns (newest first); `firstMessage` is the result of the
separate thread-origin fetch (`None` when it failed or when not a thread);
`cutoff` is `now - days`.  Python's `list.sort` is stable, so the sort of
line 151 is modelled by stable insertion sort, which produces the identical
list.  After sorting, a present, non-bot origin message is prepended
(lines 153-170). -/
def fetch_messages_from_past (chName : String) (pages : List (List RawMessage))
    (cutoff : Nat) (isThread : Bool) (firstMessage : Option RawMessage)
    (threadName : Option String) : List MessageData :=
  match firstMessage with
  | some fm =>
    if isThread && !fm.authorBot then
      firstMessageData chName isThread threadName fm ::
        List.insertionSort tsLe
          (fetchPages cutoff chName isThread (some fm.id) threadName pages)
    else
      List.insertionSort tsLe
        (fetchPages cutoff chName isThread (some fm.id) threadName pages)
  | none =>
    List.insertionSort tsLe (fetchPages cutoff chName isThread none threadName pages)

/-! ### Harvester lemmas -/

theorem processPage_mem {cutoff : Nat} {chName : String} {isThread : Bool}
    {firstId : Option Nat} {threadName : Option String} :
    ∀ {page : List RawMessage} {m : MessageData},
      m ∈ (processPage cutoff chName isThread firstId threadName page).1 →
      ∃ r ∈ page, m = mkMessageData chName isThread threadName r ∧
        cutoff ≤ r.createdAt ∧ (isThread = true → firstId ≠ some r.id) := by
  intro page
  induction page with
  | nil => intro m hm; simp [processPage] at hm
  | cons r rest ih =>
    intro m hm
    unfold processPage at hm
    split_ifs at hm with h1 h2 h3
    · simp at hm
    · obtain ⟨r', hr', hrest⟩ := ih hm
      exact ⟨r', List.mem_cons_of_mem _ hr', hrest⟩
    · obtain ⟨r', hr', hrest⟩ := ih hm
      exact ⟨r', List.mem_cons_of_mem _ hr', hrest⟩
    · rcases List.mem_cons.mp hm with h | h
      · refine ⟨r, List.mem_cons_self _ _, h, by omega, ?_⟩
        intro hit hfid
        rw [hit, hfid] at h3
        simp at h3
      · obtain ⟨r', hr', hrest⟩ := ih h
        exact ⟨r', List.mem_cons_of_mem _ hr', hrest⟩

theorem fetchPages_mem {cutoff : Nat} {chName : String} {isThread : Bool}
    {firstId : Option Nat} {threadName : Option String} :
    ∀ {pages : List (List RawMessage)} {m : MessageData},
      m ∈ fetchPages cutoff chName isThread firstId threadName pages →
      ∃ page ∈ pages, ∃ r ∈ page, m = mkMessageData chName isThread threadName r ∧
        cutoff ≤ r.createdAt ∧ (isThread = true → firstId ≠ some r.id) := by
  intro pages
  induction pages with
  | nil => intro m hm; simp [fetchPages] at hm
  | cons page rest ih =>
    intro m hm
    rcases page with _ | ⟨x, xs⟩
    · unfold fetchPages at hm; simp at hm
    · unfold fetchPages at hm
      split_ifs at hm with h1 h2
      · obtain ⟨r, hr, hrest⟩ := processPage_mem hm
        exact ⟨x :: xs, List.mem_cons_self _ _, r, hr, hrest⟩
      · obtain ⟨r, hr, hrest⟩ := processPage_mem hm
        exact ⟨x :: xs, List.mem_cons_self _ _, r, hr, hrest⟩
      · rcases List.mem_append.mp hm with h | h
        · obtain ⟨r, hr, hrest⟩ := processPage_mem h
          exact ⟨x :: xs, List.mem_cons_self _ _, r, hr, hrest⟩
        · obtain ⟨p', hp', hrest⟩ := ih h
          exact ⟨p', List.mem_cons_of_mem _ hp', hrest⟩

theorem processPage_break {cutoff : Nat} {chName : String} {isThread : Bool}
    {firstId : Option Nat} {threadName : Option String} :
    ∀ (p1 : List RawMessage) (old : RawMessage) (p2 : List RawMessage),
      (∀ x ∈ p1, cutoff ≤ x.createdAt) → old.createdAt < cutoff →
      processPage cutoff chName isThread firstId threadName (p1 ++ old :: p2)
        = ((processPage cutoff chName isThread firstId threadName p1).1, true) := by
  intro p1
  induction p1 with
  | nil =>
    intro old p2 _ hold
    simp only [List.nil_append]
    unfold processPage
    rw [if_pos hold]
  | cons x p1' ih =>
    intro old p2 hall hold
    have hx : cutoff ≤ x.createdAt := hall x (List.mem_cons_self _ _)
    have hrec := ih old p2 (fun y hy => hall y (List.mem_cons_of_mem _ hy)) hold
    have hx' : ¬x.createdAt < cutoff := by omega
    simp only [List.cons_append]
    unfold processPage
    rw [if_neg hx', if_neg hx']
    by_cases hb : x.authorBot
    · rw [if_pos hb, if_pos hb]
      exact hrec
    · rw [if_neg hb, if_neg hb]
      by_cases hs : (isThread && firstId == some x.id) = true
      · rw [if_pos hs, if_pos hs]
        exact hrec
      · rw [if_neg hs, if_neg hs, hrec]

/-! ### Concrete inputs used by witnesses and counterexamples -/

def msg200 : RawMessage := ⟨3, "beta", "bob", false, 200, [], 0⟩

def msg150 : RawMessage := ⟨2, "see https://example.com/a", "carol", false, 150, [], 0⟩

def msg50 : RawMessage := ⟨4, "old", "erin", false, 50, [], 0⟩

def originMsg : RawMessage := ⟨1, "https://github.com/x", "alice", false, 10, [], 0⟩

theorem extract_urls_github : extract_urls "https://github.com/x" = ["https://github.com/x"] := by
  simp [extract_urls, findUrls, matchUrlAt, urlAfterScheme, urlBody, tryK1, tryK2,
    boundaryOk, isUrlC1, isUrlC2, isUrlC3, isWordCh]

theorem extract_urls_example : extract_urls "see https://example.com/a" = ["https://example.com/a"] := by
  simp [extract_urls, findUrls, matchUrlAt, urlAfterScheme, urlBody, tryK1, tryK2,
    boundaryOk, isUrlC1, isUrlC2, isUrlC3, isWordCh]

/-! ### Claims about the harvester -/

/-- C1: every collection the harvester returns (channel or thread) lists
messages in non-decreasing timestamp order: adjacent records satisfy
`tsLe`.  The sole environmental hypothesis is the platform guarantee that a
thread's origin message (fetched by the thread's own id) was created no later
than any message of the thread's feed; for channel harvests
(`firstMessage = none`) the hypothesis is vacuous. -/
theorem claim_C1 (chName : String) (pages : List (List RawMessage)) (cutoff : Nat)
    (isThread : Bool) (fm : Option RawMessage) (tn : Option String)
    (h : ∀ f, fm = some f → ∀ page ∈ pages, ∀ r ∈ page, f.createdAt ≤ r.createdAt) :
    List.Chain' tsLe (fetch_messages_from_past chName pages cutoff isThread fm tn) := by
  cases fm with
  | none =>
    simp only [fetch_messages_from_past]
    exact List.Pairwise.chain' (List.sorted_insertionSort tsLe _)
  | some f =>
    simp only [fetch_messages_from_past]
    split_ifs with hf
    · apply List.Pairwise.chain'
      rw [List.pairwise_cons]
      constructor
      · intro b hb
        obtain ⟨page, hp, r, hr, hbeq, _, _⟩ :=
          fetchPages_mem ((List.perm_insertionSort tsLe _).mem_iff.mp hb)
        have hle := h f rfl page hp r hr
        subst hbeq
        exact hle
      · exact List.sorted_insertionSort tsLe _
    · exact List.Pairwise.chain' (List.sorted_insertionSort tsLe _)

theorem claim_C1_witness :
    List.Chain' tsLe
      (fetch_messages_from_past "general" [[msg200, msg150]] 100 true (some originMsg) (some "t")) :=
  claim_C1 "general" [[msg200, msg150]] 100 true (some originMsg) (some "t")
    (by intro f hf; rw [Option.some_inj] at hf; subst hf; decide)

/-- C2: (first part) no record of a harvested collection has a timestamp
before the window start, except the prepended thread-origin record, which may
be arbitrarily old; (second part) as soon as a message older than the cutoff
is met inside a page, pagination stops: the harvested records of that
iteration are exactly the survivors of the part of the page before the old
message, and no later page contributes anything. -/
theorem claim_C2 (chName : String) (pages : List (List RawMessage)) (cutoff : Nat)
    (isThread : Bool) (fm : Option RawMessage) (tn : Option String) :
    (∀ m ∈ fetch_messages_from_past chName pages cutoff isThread fm tn,
        m.timestamp < cutoff →
        isThread = true ∧ ∃ f, fm = some f ∧ m = firstMessageData chName isThread tn f)
    ∧ (∀ (fid : Option Nat) (p1 : List RawMessage) (old : RawMessage)
        (p2 : List RawMessage) (rest : List (List RawMessage)),
        (∀ x ∈ p1, cutoff ≤ x.createdAt) → old.createdAt < cutoff →
        fetchPages cutoff chName isThread fid tn ((p1 ++ old :: p2) :: rest)
          = (processPage cutoff chName isThread fid tn p1).1) := by
  constructor
  · intro m hm hlt
    cases fm with
    | none =>
      simp only [fetch_messages_from_past] at hm
      exfalso
      obtain ⟨p, _, r, _, hme, hcut, _⟩ :=
        fetchPages_mem ((List.perm_insertionSort tsLe _).mem_iff.mp hm)
      subst hme
      exact absurd hlt (by simp [mkMessageData]; omega)
    | some f =>
      simp only [fetch_messages_from_past] at hm
      by_cases hc : (isThread && !f.authorBot) = true
      · rw [if_pos hc] at hm
        rcases List.mem_cons.mp hm with h | h
        · rw [Bool.and_eq_true] at hc
          exact ⟨hc.1, f, rfl, h⟩
        · exfalso
          obtain ⟨p, _, r, _, hme, hcut, _⟩ :=
            fetchPages_mem ((List.perm_insertionSort tsLe _).mem_iff.mp h)
          subst hme
          exact absurd hlt (by simp [mkMessageData]; omega)
      · rw [if_neg hc] at hm
        exfalso
        obtain ⟨p, _, r, _, hme, hcut, _⟩ :=
          fetchPages_mem ((List.perm_insertionSort tsLe _).mem_iff.mp hm)
        subst hme
        exact absurd hlt (by simp [mkMessageData]; omega)
  · intro fid p1 old p2 rest h1 h2
    have hpb := @processPage_break cutoff chName isThread fid tn p1 old p2 h1 h2
    rcases p1 with _ | ⟨x, xs⟩
    · simp only [List.nil_append] at hpb ⊢
      unfold fetchPages
      rw [hpb]
      simp
    · simp only [List.cons_append] at hpb ⊢
      unfold fetchPages
      rw [hpb]
      simp

theorem claim_C2_witness :
    (fetchPages 100 "c" false none none [[msg200, msg50]]
        = (processPage 100 "c" false none none [msg200]).1)
    ∧ (true = true ∧ ∃ f, (some originMsg : Option RawMessage) = some f ∧
        firstMessageData "c" true none originMsg = firstMessageData "c" true none f) :=
  ⟨(claim_C2 "c" [] 100 false none none).2 none [msg200] msg50 [] []
      (by decide) (by decide),
   (claim_C2 "c" [] 100 true (some originMsg) none).1
      (firstMessageData "c" true none originMsg)
      (by simp [fetch_messages_from_past, fetchPages, originMsg, List.insertionSort])
      (by decide)⟩

/-- C3: when a thread's origin message exists and is not bot-authored, the
harvested collection is exactly the origin record followed by the sorted
page survivors: the origin sits at index 0, carries the
`"[Thread Starter] "` content marker, and no other record of the collection
has the origin's id (the pagination loop skips it), with no condition at all
on the origin's timestamp or the cutoff. -/
theorem claim_C3 (chName : String) (pages : List (List RawMessage)) (cutoff : Nat)
    (fm : RawMessage) (tn : Option String) (hb : fm.authorBot = false) :
    ∃ rest, fetch_messages_from_past chName pages cutoff true (some fm) tn
        = firstMessageData chName true tn fm :: rest
      ∧ (firstMessageData chName true tn fm).content = "[Thread Starter] " ++ fm.content
      ∧ ∀ m ∈ rest, m.id ≠ fm.id := by
  refine ⟨List.insertionSort tsLe (fetchPages cutoff chName true (some fm.id) tn pages),
    ?_, rfl, ?_⟩
  · unfold fetch_messages_from_past
    simp [hb]
  · intro m hm
    obtain ⟨p, _, r, _, hme, _, hne⟩ :=
      fetchPages_mem ((List.perm_insertionSort tsLe _).mem_iff.mp hm)
    have hne' : (some fm.id : Option Nat) ≠ some r.id := hne rfl
    subst hme
    simp only [mkMessageData]
    intro hid
    exact hne' (by rw [hid])

theorem claim_C3_witness :
    ∃ rest, fetch_messages_from_past "c" [[msg200]] 100 true (some originMsg) (some "t")
        = firstMessageData "c" true (some "t") originMsg :: rest
      ∧ (firstMessageData "c" true (some "t") originMsg).content
          = "[Thread Starter] " ++ originMsg.content
      ∧ ∀ m ∈ rest, m.id ≠ originMsg.id :=
  claim_C3 "c" [[msg200]] 100 originMsg (some "t") (by decide)

/-- C8 counterexample: the claim "no message of a harvested collection,
including a prepended thread-origin message, carries a github.com URL" is
false on the code: the thread-origin record's URL list is built without the
github filter (line 156 of src/utils.py), so an origin message whose content
is a GitHub link yields a harvested record containing that link. -/
theorem claim_C8_counterexample :
    ∃ m ∈ fetch_messages_from_past "c" [] 100 true (some originMsg) none,
      ∃ u ∈ m.urls, strHas (lowerStr u) "github.com" = true := by
  refine ⟨firstMessageData "c" true none originMsg, ?_, "https://github.com/x", ?_, ?_⟩
  · simp [fetch_messages_from_past, fetchPages, originMsg, List.insertionSort]
  · show _ ∈ (firstMessageData "c" true none originMsg).urls
    simp [firstMessageData, originMsg, extract_urls_github]
  · decide

/-- C8 (amended): every record of a harvested collection other than the
prepended thread-origin record has a URL list free of "github.com" links
(case-insensitively); the thread-origin record's URL list is the raw
extraction result and is not filtered. -/
theorem claim_C8 (chName : String) (pages : List (List RawMessage)) (cutoff : Nat)
    (isThread : Bool) (fm : Option RawMessage) (tn : Option String) :
    ∀ m ∈ fetch_messages_from_past chName pages cutoff isThread fm tn,
      (∀ f, fm = some f → m ≠ firstMessageData chName isThread tn f) →
      ∀ u ∈ m.urls, strHas (lowerStr u) "github.com" = false := by
  intro m hm hnot u hu
  have hcore : ∃ fid, m ∈ fetchPages cutoff chName isThread fid tn pages := by
    cases fm with
    | none =>
      simp only [fetch_messages_from_past] at hm
      exact ⟨none, (List.perm_insertionSort tsLe _).mem_iff.mp hm⟩
    | some f =>
      simp only [fetch_messages_from_past] at hm
      by_cases hc : (isThread && !f.authorBot) = true
      · rw [if_pos hc] at hm
        rcases List.mem_cons.mp hm with h | h
        · exact absurd h (hnot f rfl)
        · exact ⟨some f.id, (List.perm_insertionSort tsLe _).mem_iff.mp h⟩
      · rw [if_neg hc] at hm
        exact ⟨some f.id, (List.perm_insertionSort tsLe _).mem_iff.mp hm⟩
  obtain ⟨fid, hm'⟩ := hcore
  obtain ⟨p, _, r, _, hme, _, _⟩ := fetchPages_mem hm'
  subst hme
  simp only [mkMessageData] at hu
  have hf := (List.mem_filter.mp hu).2
  simpa using hf

theorem claim_C8_witness : strHas (lowerStr "https://example.com/a") "github.com" = false :=
  claim_C8 "c" [[msg150]] 100 false none none
    (mkMessageData "c" false none msg150)
    (by simp [fetch_messages_from_past, fetchPages, processPage, msg150, List.insertionSort])
    (by intro f hf; exact Option.noConfusion hf)
    "https://example.com/a"
    (by simp only [mkMessageData, msg150, extract_urls_example]; decide)

/-! ### The deal-state classifier (summary_generator.py)

The CRM collaborator appears as data: the main deals listing, the per-deal
flow listing and the organizations listing are `Except Unit _` values
(`.error ()` models a raised request exception / malformed response).  Deal
record fields are `Option`s (`none` models an absent key, hit by `.get`
defaults).  Monetary values are integers, which the Pipedrive payloads carry;
on integers Python's `float` conversion and final `round` are exact, so
value arithmetic is `Int` arithmetic. -/

structure Deal where
  id : Nat
  title : Option String
  value : Option Int
  status : Option String
  update_time : Option String
  won_time : Option String
  lost_time : Option String
  lost_reason : Option String
  org_name : Option String
deriving DecidableEq

structure DealsData where
  success : Bool
  data : List Deal
deriving DecidableEq

/-- One entry of a deal's change-history (`/deals/{id}/flow`).  `hasData`
records whether the entry carries a `data` mapping: when it does not,
`check_if_previously_won` hits an attribute error on `.get('data', [])`
(a list has no `.get`), while `get_deal_value_change` uses the `{}` default
and reads `'0'` values. -/
structure FlowItem where
  object_type : Option String
  to_value : Option String
  object : Option String
  timestamp : Option String
  hasData : Bool
  old_value : Option String
  new_value : Option String
deriving DecidableEq

structure FlowResp where
  success : Bool
  data : List FlowItem
deriving DecidableEq

structure Org where
  name : Option String
  add_time : Option String
  member_count : Option String
deriving DecidableEq

structure OrgsData where
  success : Bool
  data : List Org
deriving DecidableEq

/-- The mapping `fetch_recent_pipedrive_deals` returns. -/
structure DealCategories where
  converted : List String
  churned : List String
  lost_deals : List String
  upgrades : List String
  downgrades : List String
  new_trials : List String
  to_convert : List String
  new_organizations : List (String × String)
deriving DecidableEq

/-- The all-empty mapping returned on a classifier-level fault
(lines 259-268). -/
def emptyCategories : DealCategories := ⟨[], [], [], [], [], [], [], []⟩

/-- Python `s.startswith(pre)`. -/
def pyStartsWith (s pre : String) : Bool := s.data.take pre.data.length == pre.data

/-- Decimal digits to an integer. -/
def ofDigits (ds : List Char) : Int :=
  ds.foldl (fun n c => n * 10 + (c.toNat - 48 : Nat)) 0

/-- Python `float(...)` on the integral value strings the CRM delivers
(optional sign and decimal digits); any other string raises `ValueError`,
modelled as `none`. -/
def parseIntStr (s : String) : Option Int :=
  match s.data with
  | '-' :: ds => if ds ≠ [] ∧ ds.all Char.isDigit then some (-(ofDigits ds)) else none
  | ds => if ds ≠ [] ∧ ds.all Char.isDigit then some (ofDigits ds) else none

/-- The history walk of `check_if_previously_won` (lines 302-311): a
`dealStatus` transition to `won` reports churn; otherwise the item's `data`
mapping is read — an item without one raises (caught by the wrapper as
`False`); an `old_value` of `won` also reports churn. -/
def scanFlowForWon : List FlowItem → Except Unit Bool
  | [] => .ok false
  | it :: rest =>
    if it.object_type == some "dealStatus" && it.to_value == some "won" then .ok true
    else if !it.hasData then .error ()
    else if it.old_value == some "won" then .ok true
    else scanFlowForWon rest

/-- summary_generator.py `check_if_previously_won`: `False` on a request
fault, an unsuccessful response, or an in-walk fault; otherwise the walk's
verdict. -/
def check_if_previously_won (flow : Nat → Except Unit FlowResp) (dealId : Nat) : Bool :=
  match flow dealId with
  | .error _ => false
  | .ok fr =>
    if !fr.success then false
    else
      match scanFlowForWon fr.data with
      | .error _ => false
      | .ok b => b

/-- The flow walk of `get_deal_value_change` (lines 346-358): the first
`dealChange` entry with a timestamp inside the window decides; a `None`
timestamp on a `dealChange` entry or an unparsable value raises (caught as
`None`); a zero delta falls through to later entries.  Value rendering uses
decimal integers where Python prints floats (`50` for `50.0`) — the caller
only inspects the `Downgrade`/`Upgrade` prefix. -/
def scanValueChange (sevenIso : String) (title : String) : List FlowItem → Option String
  | [] => none
  | it :: rest =>
    if it.object == some "dealChange" then
      match it.timestamp with
      | none => none
      | some ts =>
        if pyGe ts sevenIso then
          match parseIntStr (if it.hasData then it.old_value.getD "0" else "0"),
              parseIntStr (if it.hasData then it.new_value.getD "0" else "0") with
          | some o, some n =>
            if n - o < 0 then
              some ("Downgrade: " ++ title ++ " " ++ toString o ++ "€ → " ++ toString n
                ++ "€ (" ++ toString (n - o) ++ "€)")
            else if 0 < n - o then
              some ("Upgrade: " ++ title ++ " " ++ toString o ++ "€ → " ++ toString n
                ++ "€ (" ++ toString (n - o) ++ "€)")
            else scanValueChange sevenIso title rest
          | _, _ => none
        else scanValueChange sevenIso title rest
    else scanValueChange sevenIso title rest

/-- summary_generator.py `get_deal_value_change`. -/
def get_deal_value_change (flow : Nat → Except Unit FlowResp) (sevenIso : String)
    (dealId : Nat) (title : String) : Option String :=
  match flow dealId with
  | .error _ => none
  | .ok fr =>
    if !fr.success then none
    else scanValueChange sevenIso title fr.data

/-- summary_generator.py `filter_deals_with_value_change` (lines 69-82): keeps
deals updated inside the window whose `won_time` exists and predates the
window.  A deal with no `update_time` raises a `TypeError` (`None >= str`),
uncaught here, so it propagates (`.error`). -/
def filter_deals_with_value_change (sevenIso : String) : List Deal → Except Unit (List Deal)
  | [] => .ok []
  | d :: rest =>
    match d.update_time with
    | none => .error ()
    | some ut =>
      if pyGe ut sevenIso then
        match d.won_time with
        | some wt =>
          if pyLt wt sevenIso then
            match filter_deals_with_value_change sevenIso rest with
            | .ok l => .ok (d :: l)
            | .error e => .error e
          else filter_deals_with_value_change sevenIso rest
        | none => filter_deals_with_value_change sevenIso rest
      else filter_deals_with_value_change sevenIso rest

/-- The value-change pass of lines 165-172: for each filtered deal the flow
lookup's verdict is sorted into downgrades (by string prefix) or upgrades.
When `get_deal_value_change` returns `None` — a flow fault, an unsuccessful
flow response, or simply no qualifying change entry — the caller calls
`.startswith` on `None` and raises an `AttributeError` (`.error`), which
only the classifier's outermost handler catches. -/
def valueChangePass (flow : Nat → Except Unit FlowResp) (sevenIso : String) :
    List Deal → List String → List String → Except Unit (List String × List String)
  | [], ups, downs => .ok (ups, downs)
  | d :: rest, ups, downs =>
    match get_deal_value_change flow sevenIso d.id (d.title.getD "None") with
    | none => .error ()
    | some s =>
      if pyStartsWith s "Downgrade" then valueChangePass flow sevenIso rest ups (downs ++ [s])
      else valueChangePass flow sevenIso rest (ups ++ [s]) downs

/-- The accumulating category lists of the main loop (lines 189-193 plus the
upgrades/downgrades lists carried over from the value-change pass). -/
structure LoopAcc where
  converted : List String
  churned : List String
  lost_deals : List String
  to_convert : List String
  new_trials : List String
  upgrades : List String
  downgrades : List String
deriving DecidableEq

/-- One iteration of the main classification loop (lines 195-238): skip deals
with a falsy `update_time`; skip stale non-open deals; then the
first-match-wins chain over status and title keywords.  The per-deal
`try/except` wraps only total operations in this model. -/
def processDeal (flow : Nat → Except Unit FlowResp) (sevenDate : String)
    (acc : LoopAcc) (d : Deal) : LoopAcc :=
  match d.update_time with
  | none => acc
  | some ut =>
    if ut == "" then acc
    else
      if pyLt (datePart ut) sevenDate && !(d.status == some "open") then acc
      else if d.status == some "won" then
        match d.won_time with
        | none => acc
        | some wt =>
          if wt != "" && pyGe (datePart wt) sevenDate then
            { acc with converted := acc.converted ++
                [d.org_name.getD "Unknown company" ++ " +" ++ toString (d.value.getD 0) ++ "€/mo"] }
          else acc
      else if d.status == some "lost" then
        match d.lost_time with
        | none => acc
        | some lt =>
          if lt != "" && pyGe (datePart lt) sevenDate then
            if strHas (lowerStr (d.title.getD "Unnamed deal")) "churn"
                || check_if_previously_won flow d.id then
              { acc with churned := acc.churned ++
                  [d.org_name.getD "Unknown company" ++ " -" ++ toString (d.value.getD 0)
                    ++ "€/mo (" ++ d.lost_reason.getD "No reason provided" ++ ")"] }
            else
              { acc with lost_deals := acc.lost_deals ++
                  [d.org_name.getD "Unknown company" ++ " ("
                    ++ d.lost_reason.getD "No reason provided" ++ ")"] }
          else acc
      else if d.status == some "open" then
        { acc with to_convert := acc.to_convert ++ [d.org_name.getD "Unknown company"] }
      else if strHas (lowerStr (d.title.getD "Unnamed deal")) "upgrade" then
        { acc with upgrades := acc.upgrades ++
            [d.org_name.getD "Unknown company" ++ " +" ++ toString (d.value.getD 0) ++ "€/mo"] }
      else if strHas (lowerStr (d.title.getD "Unnamed deal")) "downgrade" then
        { acc with downgrades := acc.downgrades ++
            [d.org_name.getD "Unknown company" ++ " -" ++ toString (d.value.getD 0) ++ "€/mo"] }
      else if strHas (lowerStr (d.title.getD "Unnamed deal")) "trial" && d.status == some "open" then
        { acc with new_trials := acc.new_trials ++ [d.org_name.getD "Unknown company"] }
      else acc

/-- summary_generator.py `get_new_organizations`: its own handler degrades any
fault to an empty list; organizations added inside the window are kept with
their name and the custom member-count field (defaults applied). -/
def get_new_organizations (orgsResponse : Except Unit OrgsData) (sevenIso : String) :
    List (String × String) :=
  match orgsResponse with
  | .error _ => []
  | .ok od =>
    if !od.success then []
    else
      od.data.filterMap (fun o =>
        match o.add_time with
        | none => none
        | some t =>
          if t != "" && pyGe t sevenIso then
            some (o.name.getD "Unnamed organization", o.member_count.getD "?")
          else none)

/-- The body of `fetch_recent_pipedrive_deals`'s big `try` block (lines
143-255), sequenced exactly as the source: deals request, value-change
filter and pass, the success check with its early all-empty return, the main
loop, the organizations fetch.  The four window strings model the four
separately computed `datetime.now()`-based cutoffs (line 145 date-only, and
the isoformat cutoffs of lines 77, 347 and 111). -/
def classifierBody (sevenDate sevenIsoFilter sevenIsoFlow sevenIsoOrgs : String)
    (dealsResponse : Except Unit DealsData) (flow : Nat → Except Unit FlowResp)
    (orgsResponse : Except Unit OrgsData) : Except Unit DealCategories :=
  match dealsResponse with
  | .error e => .error e
  | .ok dealsData =>
    match filter_deals_with_value_change sevenIsoFilter dealsData.data with
    | .error e => .error e
    | .ok filtered =>
      match valueChangePass flow sevenIsoFlow filtered [] [] with
      | .error e => .error e
      | .ok (ups, downs) =>
        if !dealsData.success then .ok emptyCategories
        else
          .ok (let acc := dealsData.data.foldl (processDeal flow sevenDate)
                  ⟨[], [], [], [], [], ups, downs⟩
            ⟨acc.converted, acc.churned, acc.lost_deals, acc.upgrades, acc.downgrades,
              acc.new_trials, acc.to_convert,
              get_new_organizations orgsResponse sevenIsoOrgs⟩)

/-- summary_generator.py `fetch_recent_pipedrive_deals`: the outermost
`except` (lines 257-268) catches anything the body raises and returns the
all-empty mapping.  (The credential guard of lines 131-141 is process
configuration, outside this model.) -/
def fetch_recent_pipedrive_deals (sevenDate sevenIsoFilter sevenIsoFlow sevenIsoOrgs : String)
    (dealsResponse : Except Unit DealsData) (flow : Nat → Except Unit FlowResp)
    (orgsResponse : Except Unit OrgsData) : DealCategories :=
  match classifierBody sevenDate sevenIsoFilter sevenIsoFlow sevenIsoOrgs
      dealsResponse flow orgsResponse with
  | .ok r => r
  | .error _ => emptyCategories

structure WonDealsResp where
  success : Bool
  data : List Deal
deriving DecidableEq

/-- summary_generator.py `get_won_deals`: the deals listing filtered by
`status=won` on the CRM side; empty on a fault or unsuccessful response. -/
def get_won_deals (resp : Except Unit WonDealsResp) : List Deal :=
  match resp with
  | .error _ => []
  | .ok r => if r.success then r.data else []

/-- summary_generator.py `calculate_total_won_value`: `round(sum(...))` over
every returned won deal's value; on the integral values of this model the
final `round` is the identity. -/
def calculate_total_won_value (resp : Except Unit WonDealsResp) : Int :=
  ((get_won_deals resp).map (fun d => d.value.getD 0)).sum

/-! ### Concrete classifier inputs for witnesses and counterexamples -/

def churnDeal : Deal :=
  ⟨7, some "Churn risk Co", some 99, some "lost", some "2026-10-10 08:00:00", none,
    some "2026-10-09 12:00:00", some "low activity", some "Churn risk Co"⟩

def wonDeal : Deal :=
  ⟨1, some "Won deal", some 100, some "won", some "2026-10-10 12:00:00",
    some "2026-10-10 12:00:00", none, none, some "Acme"⟩

def vcDeal : Deal :=
  ⟨2, some "VC deal", some 50, some "won", some "2026-10-10T12:00:00",
    some "2026-09-01T00:00:00", none, none, some "VC Co"⟩

def openDeal : Deal :=
  ⟨8, some "Trial of upgrade", some 10, some "open", some "2026-10-09 08:00:00",
    none, none, none, some "Open Co"⟩

def vcDealsData : DealsData := ⟨true, [wonDeal, vcDeal]⟩

def flowErr : Nat → Except Unit FlowResp := fun _ => .error ()

def flowEmpty : Nat → Except Unit FlowResp := fun _ => .ok ⟨true, []⟩

def changeItem : FlowItem :=
  ⟨none, none, some "dealChange", some "2026-10-06T00:00:00", true, some "50", some "100"⟩

def flowOk : Nat → Except Unit FlowResp := fun _ => .ok ⟨true, [changeItem]⟩

/-- The churned-category entry built at line 225 for a lost deal. -/
def churnEntry (d : Deal) : String :=
  d.org_name.getD "Unknown company" ++ " -" ++ toString (d.value.getD 0) ++ "€/mo ("
    ++ d.lost_reason.getD "No reason provided" ++ ")"

/-! ### Classifier lemmas -/

theorem processDeal_churn {flow : Nat → Except Unit FlowResp} {sevenDate : String}
    {d : Deal} {ut lt : String}
    (hut : d.update_time = some ut) (hut0 : ut ≠ "")
    (hskip : pyLt (datePart ut) sevenDate = false)
    (hst : d.status = some "lost")
    (hlt : d.lost_time = some lt) (hlt0 : lt ≠ "")
    (hwin : pyGe (datePart lt) sevenDate = true)
    (hchurn : strHas (lowerStr (d.title.getD "Unnamed deal")) "churn" = true) :
    ∀ acc, processDeal flow sevenDate acc d
      = { acc with churned := acc.churned ++ [churnEntry d] } := by
  intro acc
  unfold processDeal
  rw [hut, hst, hlt, hchurn]
  have e1 : ((some "lost" : Option String) == some "open") = false := by decide
  have e2 : ((some "lost" : Option String) == some "won") = false := by decide
  have e3 : ((some "lost" : Option String) == some "lost") = true := by decide
  simp [hut0, hskip, hlt0, hwin, e1, e2, e3, churnEntry]

theorem processDeal_keyword_unreachable {flow : Nat → Except Unit FlowResp}
    {sevenDate : String} {d : Deal}
    (hst : d.status = some "open" ∨ d.status = some "won" ∨ d.status = some "lost")
    (acc : LoopAcc) :
    (processDeal flow sevenDate acc d).new_trials = acc.new_trials
    ∧ (processDeal flow sevenDate acc d).upgrades = acc.upgrades
    ∧ (processDeal flow sevenDate acc d).downgrades = acc.downgrades := by
  unfold processDeal
  cases hu : d.update_time with
  | none => exact ⟨rfl, rfl, rfl⟩
  | some ut =>
    rcases hst with h | h | h <;>
      cases hw : d.won_time <;> cases hl : d.lost_time <;>
        simp [h, hw, hl] <;> (try split_ifs <;> simp)

theorem foldl_keyword_unreachable {flow : Nat → Except Unit FlowResp} {sevenDate : String} :
    ∀ (deals : List Deal) (acc : LoopAcc),
      (∀ d ∈ deals, d.status = some "open" ∨ d.status = some "won" ∨ d.status = some "lost") →
      (deals.foldl (processDeal flow sevenDate) acc).new_trials = acc.new_trials
      ∧ (deals.foldl (processDeal flow sevenDate) acc).upgrades = acc.upgrades
      ∧ (deals.foldl (processDeal flow sevenDate) acc).downgrades = acc.downgrades := by
  intro deals
  induction deals with
  | nil => intro acc _; exact ⟨rfl, rfl, rfl⟩
  | cons d rest ih =>
    intro acc h
    have h1 := @processDeal_keyword_unreachable flow sevenDate d
      (h d (List.mem_cons_self _ _)) acc
    have h2 := ih (processDeal flow sevenDate acc d)
      (fun x hx => h x (List.mem_cons_of_mem _ hx))
    simp only [List.foldl_cons]
    exact ⟨h2.1.trans h1.1, h2.2.1.trans h1.2.1, h2.2.2.trans h1.2.2⟩

/-! ### Claims about the classifier -/

/-- C4: a lost deal whose lost-time falls inside the window and whose title
contains "churn" case-insensitively is placed in churned and not in
lost_deals, for every behaviour of the history-lookup collaborator (the
title test short-circuits the `or`): (i) the deal's loop step appends
exactly its churn entry to churned, and (ii) running the whole classifier on
such a deal yields churned = that entry and lost_deals = [] — in particular
with a lookup that reports false. -/
theorem claim_C4 (flow : Nat → Except Unit FlowResp) (sevenDate : String) (d : Deal)
    (ut lt : String)
    (hut : d.update_time = some ut) (hut0 : ut ≠ "")
    (hskip : pyLt (datePart ut) sevenDate = false)
    (hst : d.status = some "lost")
    (hlt : d.lost_time = some lt) (hlt0 : lt ≠ "")
    (hwin : pyGe (datePart lt) sevenDate = true)
    (hchurn : strHas (lowerStr (d.title.getD "Unnamed deal")) "churn" = true) :
    (∀ acc, processDeal flow sevenDate acc d
        = { acc with churned := acc.churned ++ [churnEntry d] })
    ∧ (∀ (isoF isoFl isoO : String) (orgsResponse : Except Unit OrgsData),
        d.won_time = none →
        (fetch_recent_pipedrive_deals sevenDate isoF isoFl isoO (.ok ⟨true, [d]⟩)
            flow orgsResponse).churned = [churnEntry d]
        ∧ (fetch_recent_pipedrive_deals sevenDate isoF isoFl isoO (.ok ⟨true, [d]⟩)
            flow orgsResponse).lost_deals = []) := by
  have hstep := @processDeal_churn flow sevenDate d ut lt hut hut0 hskip hst hlt hlt0 hwin hchurn
  refine ⟨hstep, ?_⟩
  intro isoF isoFl isoO orgsResp hwon
  have hfil : filter_deals_with_value_change isoF [d] = .ok [] := by
    unfold filter_deals_with_value_change
    rw [hut, hwon]
    cases hpg : pyGe ut isoF <;> simp [filter_deals_with_value_change]
  have hbody : fetch_recent_pipedrive_deals sevenDate isoF isoFl isoO (.ok ⟨true, [d]⟩)
      flow orgsResp
      = ⟨[], [churnEntry d], [], [], [], [], [], get_new_organizations orgsResp isoO⟩ := by
    unfold fetch_recent_pipedrive_deals classifierBody
    dsimp only
    rw [hfil]
    dsimp only [valueChangePass]
    simp only [Bool.not_true, List.foldl_cons, List.foldl_nil, if_false]
    rw [hstep]
    dsimp only
    simp
  exact ⟨by rw [hbody], by rw [hbody]⟩

theorem claim_C4_witness :
    (processDeal flowEmpty "2026-10-05" ⟨[], [], [], [], [], [], []⟩ churnDeal
      = { (⟨[], [], [], [], [], [], []⟩ : LoopAcc) with churned := [] ++ [churnEntry churnDeal] })
    ∧ ((fetch_recent_pipedrive_deals "2026-10-05" "2026-10-05T00:00:00" "2026-10-05T00:00:00"
          "2026-10-05T00:00:00" (.ok ⟨true, [churnDeal]⟩) flowEmpty (.ok ⟨true, []⟩)).churned
        = [churnEntry churnDeal])
    ∧ ((fetch_recent_pipedrive_deals "2026-10-05" "2026-10-05T00:00:00" "2026-10-05T00:00:00"
          "2026-10-05T00:00:00" (.ok ⟨true, [churnDeal]⟩) flowEmpty (.ok ⟨true, []⟩)).lost_deals
        = []) :=
  ⟨(claim_C4 flowEmpty "2026-10-05" churnDeal "2026-10-10 08:00:00" "2026-10-09 12:00:00"
      rfl (by decide) (by decide) rfl rfl (by decide) (by decide) (by decide)).1 _,
   ((claim_C4 flowEmpty "2026-10-05" churnDeal "2026-10-10 08:00:00" "2026-10-09 12:00:00"
      rfl (by decide) (by decide) rfl rfl (by decide) (by decide) (by decide)).2
      "2026-10-05T00:00:00" "2026-10-05T00:00:00" "2026-10-05T00:00:00" (.ok ⟨true, []⟩) rfl).1,
   ((claim_C4 flowEmpty "2026-10-05" churnDeal "2026-10-10 08:00:00" "2026-10-09 12:00:00"
      rfl (by decide) (by decide) rfl rfl (by decide) (by decide) (by decide)).2
      "2026-10-05T00:00:00" "2026-10-05T00:00:00" "2026-10-05T00:00:00" (.ok ⟨true, []⟩) rfl).2⟩

/-- C5: `total_won_value` is the plain sum of `value` over every deal the won
listing returns — the deals with status `won` — with no window test anywhere
(the quantification is over arbitrary time fields); on the integral values of
the model the final `round` is the identity, so the sum is already the
nearest integer. -/
theorem claim_C5 (ds : List Deal) (h : ∀ d ∈ ds, d.status = some "won") :
    calculate_total_won_value (.ok ⟨true, ds⟩)
      = ((ds.filter (fun d => d.status == some "won")).map (fun d => d.value.getD 0)).sum := by
  unfold calculate_total_won_value get_won_deals
  dsimp only
  rw [if_pos rfl, List.filter_eq_self.mpr]
  intro d hd
  simp [h d hd]

theorem claim_C5_witness :
    (∀ d ∈ [wonDeal, vcDeal], d.status = some "won")
    ∧ calculate_total_won_value (.ok ⟨true, [wonDeal, vcDeal]⟩)
      = (([wonDeal, vcDeal].filter (fun d => d.status == some "won")).map
          (fun d => d.value.getD 0)).sum :=
  ⟨by decide, claim_C5 [wonDeal, vcDeal] (by decide)⟩

/-- C9 counterexample: the claim "a collaborator fault empties only the
affected category and leaves the others intact" is false on the code: a
fault of the flow collaborator during the value-change pass propagates as
the `AttributeError` of line 169 to the outermost handler, which empties
every category — here the won deal that a fault-free run reports as
converted disappears as well. -/
theorem claim_C9_counterexample :
    (fetch_recent_pipedrive_deals "2026-10-05" "2026-10-05T00:00:00" "2026-10-05T00:00:00"
        "2026-10-05T00:00:00" (.ok vcDealsData) flowErr (.ok ⟨true, []⟩)).converted = []
    ∧ (fetch_recent_pipedrive_deals "2026-10-05" "2026-10-05T00:00:00" "2026-10-05T00:00:00"
        "2026-10-05T00:00:00" (.ok vcDealsData) flowOk (.ok ⟨true, []⟩)).converted
      = ["Acme +100€/mo"] := by
  exact ⟨rfl, rfl⟩

/-- C9 (amended): no fault ever escapes the classifier, but the blast radius
differs by collaborator: (i) a flow fault hit by the value-change pass (or
any fault of the main deals request) empties every category, not only the
affected one; (ii) a fault of the organizations listing only empties
`new_organizations`, leaving every other category exactly as a successful
empty listing would; (iii) a flow fault during the previously-won lookup
degrades to `False` (the deal is then classified lost, not churned). -/
theorem claim_C9 :
    (∀ (sevenDate isoF isoFl isoO : String) (flow : Nat → Except Unit FlowResp)
        (orgsResponse : Except Unit OrgsData) (dd : DealsData) (filtered : List Deal),
        filter_deals_with_value_change isoF dd.data = .ok filtered →
        valueChangePass flow isoFl filtered [] [] = .error () →
        fetch_recent_pipedrive_deals sevenDate isoF isoFl isoO (.ok dd) flow orgsResponse
          = emptyCategories)
    ∧ (∀ (sevenDate isoF isoFl isoO : String) (dealsResponse : Except Unit DealsData)
        (flow : Nat → Except Unit FlowResp),
        fetch_recent_pipedrive_deals sevenDate isoF isoFl isoO dealsResponse flow (.error ())
          = fetch_recent_pipedrive_deals sevenDate isoF isoFl isoO dealsResponse flow
              (.ok ⟨true, []⟩))
    ∧ (∀ (flow : Nat → Except Unit FlowResp) (dealId : Nat),
        flow dealId = .error () → check_if_previously_won flow dealId = false) := by
  refine ⟨?_, ?_, ?_⟩
  · intro sevenDate isoF isoFl isoO flow orgsResp dd filtered hf hv
    unfold fetch_recent_pipedrive_deals classifierBody
    dsimp only
    simp only [hf, hv]
  · intro sevenDate isoF isoFl isoO dealsResponse flow
    cases dealsResponse with
    | error e => rfl
    | ok dd =>
      unfold fetch_recent_pipedrive_deals classifierBody
      dsimp only
      cases hf : filter_deals_with_value_change isoF dd.data with
      | error e => rfl
      | ok filtered =>
        cases hv : valueChangePass flow isoFl filtered [] [] with
        | error e => rfl
        | ok p =>
          obtain ⟨ups, downs⟩ := p
          cases hs : dd.success <;> rfl
  · intro flow dealId h
    unfold check_if_previously_won
    rw [h]

theorem claim_C9_witness :
    (fetch_recent_pipedrive_deals "2026-10-05" "2026-10-05T00:00:00" "2026-10-05T00:00:00"
        "2026-10-05T00:00:00" (.ok vcDealsData) flowErr (.ok ⟨true, []⟩) = emptyCategories)
    ∧ check_if_previously_won flowErr 5 = false :=
  ⟨claim_C9.1 "2026-10-05" "2026-10-05T00:00:00" "2026-10-05T00:00:00" "2026-10-05T00:00:00"
      flowErr (.ok ⟨true, []⟩) vcDealsData [vcDeal] rfl rfl,
   claim_C9.2.2 flowErr 5 rfl⟩

/-- C10: when every deal's status is one of open/won/lost (the data model's
only statuses), the precedence chain never reaches the title-keyword
branches: `new_trials` is always empty, and the upgrades/downgrades lists
are exactly what the value-change pass produced (or empty when a fault or
the success check cut the run short) — no entry enters them through the
keyword branches. -/
theorem claim_C10 (sevenDate isoF isoFl isoO : String)
    (dealsResponse : Except Unit DealsData) (flow : Nat → Except Unit FlowResp)
    (orgsResponse : Except Unit OrgsData)
    (h : ∀ dd, dealsResponse = .ok dd → ∀ d ∈ dd.data,
        d.status = some "open" ∨ d.status = some "won" ∨ d.status = some "lost") :
    (fetch_recent_pipedrive_deals sevenDate isoF isoFl isoO dealsResponse flow
        orgsResponse).new_trials = []
    ∧ (((fetch_recent_pipedrive_deals sevenDate isoF isoFl isoO dealsResponse flow
          orgsResponse).upgrades = []
        ∧ (fetch_recent_pipedrive_deals sevenDate isoF isoFl isoO dealsResponse flow
            orgsResponse).downgrades = [])
      ∨ ∃ dd filtered, dealsResponse = .ok dd
          ∧ filter_deals_with_value_change isoF dd.data = .ok filtered
          ∧ valueChangePass flow isoFl filtered [] []
              = .ok ((fetch_recent_pipedrive_deals sevenDate isoF isoFl isoO dealsResponse
                    flow orgsResponse).upgrades,
                  (fetch_recent_pipedrive_deals sevenDate isoF isoFl isoO dealsResponse
                    flow orgsResponse).downgrades)) := by
  cases dealsResponse with
  | error e => exact ⟨rfl, .inl ⟨rfl, rfl⟩⟩
  | ok dd =>
    have hall := h dd rfl
    unfold fetch_recent_pipedrive_deals classifierBody
    dsimp only
    cases hf : filter_deals_with_value_change isoF dd.data with
    | error e => simp only [hf]; exact ⟨rfl, .inl ⟨rfl, rfl⟩⟩
    | ok filtered =>
      simp only [hf]
      cases hv : valueChangePass flow isoFl filtered [] [] with
      | error e => simp only [hv]; exact ⟨rfl, .inl ⟨rfl, rfl⟩⟩
      | ok p =>
        obtain ⟨ups, downs⟩ := p
        simp only [hv]
        cases hs : dd.success with
        | false => exact ⟨rfl, .inl ⟨rfl, rfl⟩⟩
        | true =>
          try simp only [hs, Bool.not_true, Bool.false_eq_true, if_false]
          have hfold := @foldl_keyword_unreachable flow sevenDate dd.data
            ⟨[], [], [], [], [], ups, downs⟩ hall
          try dsimp only
          refine ⟨hfold.1, .inr ⟨dd, filtered, rfl, hf, ?_⟩⟩
          rw [hfold.2.1, hfold.2.2]
          exact hv

theorem claim_C10_witness :
    (fetch_recent_pipedrive_deals "2026-10-05" "2026-10-05T00:00:00" "2026-10-05T00:00:00"
        "2026-10-05T00:00:00" (.ok ⟨true, [openDeal, churnDeal]⟩) flowEmpty
        (.ok ⟨true, []⟩)).new_trials = []
    ∧ (((fetch_recent_pipedrive_deals "2026-10-05" "2026-10-05T00:00:00" "2026-10-05T00:00:00"
          "2026-10-05T00:00:00" (.ok ⟨true, [openDeal, churnDeal]⟩) flowEmpty
          (.ok ⟨true, []⟩)).upgrades = []
        ∧ (fetch_recent_pipedrive_deals "2026-10-05" "2026-10-05T00:00:00" "2026-10-05T00:00:00"
            "2026-10-05T00:00:00" (.ok ⟨true, [openDeal, churnDeal]⟩) flowEmpty
            (.ok ⟨true, []⟩)).downgrades = [])
      ∨ ∃ dd filtered, (.ok ⟨true, [openDeal, churnDeal]⟩ : Except Unit DealsData) = .ok dd
          ∧ filter_deals_with_value_change "2026-10-05T00:00:00" dd.data = .ok filtered
          ∧ valueChangePass flowEmpty "2026-10-05T00:00:00" filtered [] []
              = .ok ((fetch_recent_pipedrive_deals "2026-10-05" "2026-10-05T00:00:00"
                    "2026-10-05T00:00:00" "2026-10-05T00:00:00"
                    (.ok ⟨true, [openDeal, churnDeal]⟩) flowEmpty (.ok ⟨true, []⟩)).upgrades,
                  (fetch_recent_pipedrive_deals "2026-10-05" "2026-10-05T00:00:00"
                    "2026-10-05T00:00:00" "2026-10-05T00:00:00"
                    (.ok ⟨true, [openDeal, churnDeal]⟩) flowEmpty (.ok ⟨true, []⟩)).downgrades)) :=
  claim_C10 "2026-10-05" "2026-10-05T00:00:00" "2026-10-05T00:00:00" "2026-10-05T00:00:00"
    (.ok ⟨true, [openDeal, churnDeal]⟩) flowEmpty (.ok ⟨true, []⟩)
    (by intro dd hdd; injection hdd with hdd'; subst hdd'; decide)

/-! ### The markdown block compiler (src/notion_utils.py)

`parse_rich_text_with_links` scans with `re.search` for the nearest of three
patterns — link `\[([^\]]+)\]\(([^)]+)\)`, bold `\*\*([^*]+)\*\*`, italic
`\*([^*]+)\*` — keeping a strictly-nearer match, so the earlier-listed
pattern wins ties.  The three `tryXAt` functions embed one anchored match
attempt at the start of the text (these patterns backtrack trivially: each
`[^x]+` group is the maximal run up to the closing delimiter), and
`searchPat` embeds `re.search`'s leftmost-position scan. -/

/-- A Notion rich-text run (the dicts built in lines 57-101). -/
inductive InlineRun where
  | plain (text : String)
  | link (text url : String)
  | bold (text : String)
  | italic (text : String)
deriving DecidableEq

/-- Anchored attempt of the link pattern `\[([^\]]+)\]\(([^)]+)\)`: returns
the matched length and run. -/
def tryLinkAt (cs : List Char) : Option (Nat × InlineRun) :=
  match cs with
  | c :: rest =>
    if c = '[' then
      if (rest.takeWhile (fun x => x != ']')).length = 0 then none
      else
        match rest.drop (rest.takeWhile (fun x => x != ']')).length with
        | c1 :: c2 :: rest2 =>
          if c1 = ']' ∧ c2 = '(' then
            if (rest2.takeWhile (fun x => x != ')')).length = 0 then none
            else
              match rest2.drop (rest2.takeWhile (fun x => x != ')')).length with
              | c3 :: _ =>
                if c3 = ')' then
                  some ((rest.takeWhile (fun x => x != ']')).length
                      + (rest2.takeWhile (fun x => x != ')')).length + 4,
                    .link (String.mk (rest.takeWhile (fun x => x != ']')))
                      (String.mk (rest2.takeWhile (fun x => x != ')'))))
                else none
              | [] => none
          else none
        | _ => none
    else none
  | [] => none

/-- Anchored attempt of the bold pattern `\*\*([^*]+)\*\*`. -/
def tryBoldAt (cs : List Char) : Option (Nat × InlineRun) :=
  match cs with
  | c1 :: c2 :: rest =>
    if c1 = '*' ∧ c2 = '*' then
      if (rest.takeWhile (fun x => x != '*')).length = 0 then none
      else
        match rest.drop (rest.takeWhile (fun x => x != '*')).length with
        | d1 :: d2 :: _ =>
          if d1 = '*' ∧ d2 = '*' then
            some ((rest.takeWhile (fun x => x != '*')).length + 4,
              .bold (String.mk (rest.takeWhile (fun x => x != '*'))))
          else none
        | _ => none
    else none
  | _ => none

/-- Anchored attempt of the italic pattern `\*([^*]+)\*`. -/
def tryItalicAt (cs : List Char) : Option (Nat × InlineRun) :=
  match cs with
  | c :: rest =>
    if c = '*' then
      if (rest.takeWhile (fun x => x != '*')).length = 0 then none
      else
        match rest.drop (rest.takeWhile (fun x => x != '*')).length with
        | d :: _ =>
          if d = '*' then
            some ((rest.takeWhile (fun x => x != '*')).length + 2,
              .italic (String.mk (rest.takeWhile (fun x => x != '*'))))
          else none
        | [] => none
    else none
  | [] => none

theorem tryLinkAt_pos {cs : List Char} {len : Nat} {r : InlineRun}
    (h : tryLinkAt cs = some (len, r)) : 0 < len := by
  unfold tryLinkAt at h
  split at h
  · split_ifs at h
    · split at h
      · split_ifs at h
        · split at h
          · split_ifs at h
            simp only [Option.some.injEq, Prod.mk.injEq] at h
            omega
          · exact absurd h (by simp)
      · exact absurd h (by simp)
  · exact absurd h (by simp)

theorem tryBoldAt_pos {cs : List Char} {len : Nat} {r : InlineRun}
    (h : tryBoldAt cs = some (len, r)) : 0 < len := by
  unfold tryBoldAt at h
  split at h
  · split_ifs at h
    · split at h
      · split_ifs at h
        simp only [Option.some.injEq, Prod.mk.injEq] at h
        omega
      · exact absurd h (by simp)
  · exact absurd h (by simp)

theorem tryItalicAt_pos {cs : List Char} {len : Nat} {r : InlineRun}
    (h : tryItalicAt cs = some (len, r)) : 0 < len := by
  unfold tryItalicAt at h
  split at h
  · split_ifs at h
    · split at h
      · split_ifs at h
        simp only [Option.some.injEq, Prod.mk.injEq] at h
        omega
      · exact absurd h (by simp)
  · exact absurd h (by simp)

/-- `re.search`: attempt the anchored pattern at every position left to
right; the result carries the match's start position, length and run. -/
def searchPat (tryAt : List Char → Option (Nat × InlineRun)) :
    List Char → Option (Nat × Nat × InlineRun)
  | [] => none
  | c :: rest =>
    match tryAt (c :: rest) with
    | some (len, r) => some (0, len, r)
    | none => (searchPat tryAt rest).map (fun x => (x.1 + 1, x.2.1, x.2.2))

theorem searchPat_spec {tryAt : List Char → Option (Nat × InlineRun)} :
    ∀ {cs : List Char} {s len : Nat} {r : InlineRun},
      searchPat tryAt cs = some (s, len, r) → tryAt (cs.drop s) = some (len, r) := by
  intro cs
  induction cs with
  | nil => intro s len r h; simp [searchPat] at h
  | cons c rest ih =>
    intro s len r h
    unfold searchPat at h
    cases ht : tryAt (c :: rest) with
    | some p =>
      obtain ⟨len', r'⟩ := p
      rw [ht] at h
      simp only [Option.some.injEq, Prod.mk.injEq] at h
      obtain ⟨hs, hlen, hr⟩ := h
      subst hs hlen hr
      simpa using ht
    | none =>
      rw [ht] at h
      simp only [Option.map_eq_some'] at h
      obtain ⟨⟨s', len', r'⟩, hx, heq⟩ := h
      simp only [Prod.mk.injEq] at heq
      obtain ⟨hs, hlen, hr⟩ := heq
      subst hs hlen hr
      simpa using ih hx

theorem searchPat_pos {tryAt : List Char → Option (Nat × InlineRun)}
    (htry : ∀ {cs : List Char} {len : Nat} {r : InlineRun},
      tryAt cs = some (len, r) → 0 < len)
    {cs : List Char} {s len : Nat} {r : InlineRun}
    (h : searchPat tryAt cs = some (s, len, r)) : 0 < len :=
  htry (searchPat_spec h)

/-- One step of the nearest-match selection loop of lines 42-55: replace the
best match so far only by a strictly nearer one, so on equal starts the
earlier-listed pattern is kept. -/
def pickNearer (best cand : Option (Nat × Nat × InlineRun)) : Option (Nat × Nat × InlineRun) :=
  match best, cand with
  | none, cand => cand
  | some b, none => some b
  | some b, some x => if x.1 < b.1 then some x else some b

/-- The nearest-match selection of lines 42-55: the three searches in the
source's pattern order. -/
def nextMatch (cs : List Char) : Option (Nat × Nat × InlineRun) :=
  [searchPat tryLinkAt cs, searchPat tryBoldAt cs, searchPat tryItalicAt cs].foldl
    pickNearer none

theorem pick_none (a : Option (Nat × Nat × InlineRun)) : pickNearer none a = a := by
  cases a <;> rfl

theorem pick_eq_or {b c : Option (Nat × Nat × InlineRun)} {x : Nat × Nat × InlineRun}
    (h : pickNearer b c = some x) :
    b = some x ∨ (c = some x ∧ ∀ y, b = some y → x.1 < y.1) := by
  cases b with
  | none =>
    rw [pick_none] at h
    exact .inr ⟨h, fun y hy => absurd hy (by simp)⟩
  | some zb =>
    cases c with
    | none =>
      have h' : some zb = some x := h
      cases Option.some.inj h'
      exact .inl rfl
    | some zc =>
      have h' : (if zc.1 < zb.1 then some zc else some zb) = some x := h
      by_cases hlt : zc.1 < zb.1
      · rw [if_pos hlt] at h'
        cases Option.some.inj h'
        refine .inr ⟨rfl, ?_⟩
        intro y hy
        cases Option.some.inj hy
        exact hlt
      · rw [if_neg hlt] at h'
        cases Option.some.inj h'
        exact .inl rfl

theorem pick_some_left {b c : Option (Nat × Nat × InlineRun)} {y : Nat × Nat × InlineRun}
    (hb : b = some y) : ∃ z, pickNearer b c = some z ∧ z.1 ≤ y.1 := by
  subst hb
  cases c with
  | none => exact ⟨y, rfl, le_refl _⟩
  | some zc =>
    by_cases hlt : zc.1 < y.1
    · exact ⟨zc, by simp [pickNearer, if_pos hlt], le_of_lt hlt⟩
    · exact ⟨y, by simp [pickNearer, if_neg hlt], le_refl _⟩

theorem pick_some_right {b c : Option (Nat × Nat × InlineRun)} {y : Nat × Nat × InlineRun}
    (hc : c = some y) : ∃ z, pickNearer b c = some z ∧ z.1 ≤ y.1 := by
  subst hc
  cases b with
  | none => exact ⟨y, by rw [pick_none], le_refl _⟩
  | some zb =>
    by_cases hlt : y.1 < zb.1
    · exact ⟨y, by simp [pickNearer, if_pos hlt], le_refl _⟩
    · exact ⟨zb, by simp [pickNearer, if_neg hlt], by omega⟩

/-- Full characterization of the selection: the winner is one of the three
search results; it is nearest (its start is at most every result's start);
and ties go to the earlier pattern — if the winner is the bold result then
any link result starts strictly later, and if it is the italic result then
any link or bold result starts strictly later. -/
theorem nextMatch_full {cs : List Char} {x : Nat × Nat × InlineRun}
    (h : nextMatch cs = some x) :
    (searchPat tryLinkAt cs = some x
      ∨ (searchPat tryBoldAt cs = some x
          ∧ ∀ y, searchPat tryLinkAt cs = some y → x.1 < y.1)
      ∨ (searchPat tryItalicAt cs = some x
          ∧ (∀ y, searchPat tryLinkAt cs = some y → x.1 < y.1)
          ∧ (∀ y, searchPat tryBoldAt cs = some y → x.1 < y.1)))
    ∧ (∀ y, searchPat tryLinkAt cs = some y → x.1 ≤ y.1)
    ∧ (∀ y, searchPat tryBoldAt cs = some y → x.1 ≤ y.1)
    ∧ (∀ y, searchPat tryItalicAt cs = some y → x.1 ≤ y.1) := by
  have hnm : pickNearer (pickNearer (searchPat tryLinkAt cs) (searchPat tryBoldAt cs))
      (searchPat tryItalicAt cs) = some x := by
    have : nextMatch cs = pickNearer (pickNearer (pickNearer none (searchPat tryLinkAt cs))
        (searchPat tryBoldAt cs)) (searchPat tryItalicAt cs) := rfl
    rw [this, pick_none] at h
    exact h
  constructor
  · rcases pick_eq_or hnm with h2 | ⟨hc, hstrict⟩
    · rcases pick_eq_or h2 with h3 | ⟨hb, hstrict'⟩
      · exact .inl h3
      · exact .inr (.inl ⟨hb, hstrict'⟩)
    · refine .inr (.inr ⟨hc, ?_, ?_⟩)
      · intro y hy
        obtain ⟨z, hz, hzle⟩ := @pick_some_left (searchPat tryLinkAt cs) (searchPat tryBoldAt cs) y hy
        exact lt_of_lt_of_le (hstrict z hz) hzle
      · intro y hy
        obtain ⟨z, hz, hzle⟩ := @pick_some_right (searchPat tryLinkAt cs) (searchPat tryBoldAt cs) y hy
        exact lt_of_lt_of_le (hstrict z hz) hzle
  · refine ⟨?_, ?_, ?_⟩
    · intro y hy
      obtain ⟨z, hz, hzle⟩ := @pick_some_left (searchPat tryLinkAt cs) (searchPat tryBoldAt cs) y hy
      obtain ⟨w, hw, hwle⟩ := @pick_some_left (pickNearer (searchPat tryLinkAt cs) (searchPat tryBoldAt cs)) (searchPat tryItalicAt cs) z hz
      rw [hnm] at hw
      cases Option.some.inj hw
      omega
    · intro y hy
      obtain ⟨z, hz, hzle⟩ := @pick_some_right (searchPat tryLinkAt cs) (searchPat tryBoldAt cs) y hy
      obtain ⟨w, hw, hwle⟩ := @pick_some_left (pickNearer (searchPat tryLinkAt cs) (searchPat tryBoldAt cs)) (searchPat tryItalicAt cs) z hz
      rw [hnm] at hw
      cases Option.some.inj hw
      omega
    · intro y hy
      obtain ⟨w, hw, hwle⟩ :=
        @pick_some_right (pickNearer (searchPat tryLinkAt cs) (searchPat tryBoldAt cs)) (searchPat tryItalicAt cs) y hy
      rw [hnm] at hw
      cases Option.some.inj hw
      omega

theorem nextMatch_cases {cs : List Char} {x : Nat × Nat × InlineRun}
    (h : nextMatch cs = some x) :
    searchPat tryLinkAt cs = some x ∨ searchPat tryBoldAt cs = some x
    ∨ searchPat tryItalicAt cs = some x := by
  rcases (nextMatch_full h).1 with h' | h' | h'
  · exact .inl h'
  · exact .inr (.inl h'.1)
  · exact .inr (.inr h'.1)

theorem nextMatch_pos {cs : List Char} {s len : Nat} {r : InlineRun}
    (h : nextMatch cs = some (s, len, r)) : 0 < len := by
  rcases nextMatch_cases h with h' | h' | h'
  · exact searchPat_pos (fun {a b c} hh => tryLinkAt_pos hh) h'
  · exact searchPat_pos (fun {a b c} hh => tryBoldAt_pos hh) h'
  · exact searchPat_pos (fun {a b c} hh => tryItalicAt_pos hh) h'

theorem nextMatch_nil : nextMatch [] = none := rfl

/-- The scanning loop of `parse_rich_text_with_links` (lines 42-103): emits a
plain run for text before the match, the typed run for the match, then
continues after the matched span; with no match left, the remaining text (if
any) becomes one plain run. -/
def parseRichTextAux : List Char → List InlineRun
  | cs =>
    match h : nextMatch cs with
    | none => if cs.isEmpty then [] else [.plain (String.mk cs)]
    | some (s, len, r) =>
      (if 0 < s then [InlineRun.plain (String.mk (cs.take s))] else []) ++
        r :: parseRichTextAux (cs.drop (s + len))
termination_by cs => cs.length
decreasing_by
  have hpos := nextMatch_pos h
  have hne : cs ≠ [] := by
    intro hcs
    rw [hcs, nextMatch_nil] at h
    exact Option.noConfusion h
  have hlen : 0 < cs.length := List.length_pos.mpr hne
  show (List.drop (s + len) cs).length < cs.length
  simp only [List.length_drop]
  omega

/-- src/notion_utils.py `parse_rich_text_with_links`, including the final
fallback to a single plain run for empty input. -/
def parse_rich_text_with_links (text : String) : List InlineRun :=
  match parseRichTextAux text.data with
  | [] => [.plain text]
  | rs => rs

/-- The text a run contributes to the rendered document (Notion shows the
`content` field; a link's URL is an annotation, not text). -/
def inlineText : InlineRun → String
  | .plain s => s
  | .link t _ => t
  | .bold s => s
  | .italic s => s

/-- Re-wrap a run in its markdown delimiters (the exact span the parser
consumed for it). -/
def renderRun : InlineRun → String
  | .plain s => s
  | .link t u => "[" ++ t ++ "](" ++ u ++ ")"
  | .bold s => "**" ++ s ++ "**"
  | .italic s => "*" ++ s ++ "*"

/-- Modelled from the spec: the visible text of a line after removing the
markup delimiters — the same nearest-match scan, where each matched span
contributes its inner text (a link its link text) and unmatched text is
kept verbatim. -/
def stripInline : List Char → List Char
  | cs =>
    match h : nextMatch cs with
    | none => cs
    | some (s, len, r) => cs.take s ++ (inlineText r).data ++ stripInline (cs.drop (s + len))
termination_by cs => cs.length
decreasing_by
  have hpos := nextMatch_pos h
  have hne : cs ≠ [] := by
    intro hcs
    rw [hcs, nextMatch_nil] at h
    exact Option.noConfusion h
  have hlen : 0 < cs.length := List.length_pos.mpr hne
  show (List.drop (s + len) cs).length < cs.length
  simp only [List.length_drop]
  omega

/-- The heading-content substitution of line 130:
`re.sub(r'\*\*|\*|\[([^\]]+)\]\(([^)]+)\)', lambda m: m.group(1) if m.group(1) else '', content)` —
at each position, `**` then `*` then the link pattern are tried in
alternation order; stars are deleted, a link is replaced by its text,
unmatched characters stay. -/
def subMarkup : List Char → List Char
  | [] => []
  | c :: rest =>
    if c = '*' then
      if rest.head? = some '*' then subMarkup (rest.drop 1)
      else subMarkup rest
    else
      match h : tryLinkAt (c :: rest) with
      | some (len, r) => (inlineText r).data ++ subMarkup ((c :: rest).drop len)
      | none => c :: subMarkup rest
termination_by cs => cs.length
decreasing_by
  all_goals first
    | (simp only [List.length_drop, List.length_cons]; omega)
    | (have hpos := tryLinkAt_pos h
       simp only [List.length_drop, List.length_cons]
       omega)

/-- The numbered-item match of line 157, `re.match(r'^\d+\.\s+(.+)$', t)` on
an already-stripped line: leading digits, a dot, at least one whitespace
character, then the (nonempty) content. -/
def numberedContent (t : String) : Option String :=
  if (t.data.takeWhile Char.isDigit).length = 0 then none
  else
    match t.data.drop (t.data.takeWhile Char.isDigit).length with
    | c :: rest =>
      if c = '.' then
        if (rest.takeWhile isPySpace).length = 0 then none
        else if rest.drop (rest.takeWhile isPySpace).length = [] then none
        else some (String.mk (rest.drop (rest.takeWhile isPySpace).length))
      else none
    | [] => none

/-- A Notion content block (the dicts built in `convert_markdown_to_blocks`);
heading text is plain (markup stripped), the list-item and paragraph bodies
are inline-parsed runs. -/
inductive ContentBlock where
  | heading (level : Nat) (text : String)
  | bulleted_list_item (rich_text : List InlineRun)
  | numbered_list_item (rich_text : List InlineRun)
  | code (text : String)
  | paragraph (rich_text : List InlineRun)
deriving DecidableEq

/-- One line of `convert_markdown_to_blocks` (lines 120-190), in the source's
branch order: blank → nothing; leading `#` → heading (level clamped to 3,
content lstripped of `#`, stripped, markup-substituted); trimmed `- ` →
bullet; numbered-item match → numbered item; trimmed triple backtick
(U+0060) → code; otherwise a paragraph over the raw line. -/
def convertLine (line : List Char) : Option ContentBlock :=
  if trimChars line = [] then none
  else if line.take 1 = ['#'] then
    some (.heading (min (line.takeWhile (fun c => c == '#')).length 3)
      (String.mk (subMarkup (trimChars (line.dropWhile (fun c => c == '#'))))))
  else if (trimChars line).take 2 = ['-', ' '] then
    some (.bulleted_list_item (parse_rich_text_with_links (String.mk ((trimChars line).drop 2))))
  else
    match numberedContent (String.mk (trimChars line)) with
    | some content => some (.numbered_list_item (parse_rich_text_with_links content))
    | none =>
      if (trimChars line).take 3 = [Char.ofNat 96, Char.ofNat 96, Char.ofNat 96] then
        some (.code (String.mk ((trimChars line).drop 3)))
      else some (.paragraph (parse_rich_text_with_links (String.mk line)))

/-- src/notion_utils.py `convert_markdown_to_blocks`. -/
def convert_markdown_to_blocks (markdown : String) : List ContentBlock :=
  (splitOnCharAux '\n' markdown.data []).filterMap convertLine

/-! ### Inline parser lemmas: each match consumes exactly the span it
reports, so the runs decompose the input. -/

theorem take_drop_takeWhile (p : Char → Bool) (l : List Char) :
    l = l.takeWhile p ++ l.drop (l.takeWhile p).length := by
  conv_lhs => rw [← List.take_append_drop (l.takeWhile p).length l]
  congr 1
  exact (List.prefix_iff_eq_take.mp (List.takeWhile_prefix p)).symm

theorem tryLinkAt_spec {cs : List Char} {len : Nat} {r : InlineRun}
    (h : tryLinkAt cs = some (len, r)) :
    ∃ t u tail, r = .link (String.mk t) (String.mk u)
      ∧ cs = '[' :: (t ++ ']' :: '(' :: (u ++ ')' :: tail))
      ∧ len = t.length + u.length + 4 := by
  unfold tryLinkAt at h
  split at h
  · rename_i c rest
    split_ifs at h with hc h0
    all_goals try contradiction
    subst hc
    split at h
    all_goals try contradiction
    rename_i c1 c2 rest2 heq
    split_ifs at h with hc12 h1
    all_goals try contradiction
    obtain ⟨hc1, hc2⟩ := hc12
    subst hc1 hc2
    split at h
    all_goals try contradiction
    rename_i c3 tail heq2
    split_ifs at h with hc3
    all_goals try contradiction
    subst hc3
    simp only [Option.some.injEq, Prod.mk.injEq] at h
    obtain ⟨hlen, hr⟩ := h
    set t := rest.takeWhile (fun x => x != ']') with htdef
    set u := rest2.takeWhile (fun x => x != ')') with hudef
    have e1 : rest = t ++ (']' :: '(' :: rest2) := by
      conv_lhs => rw [take_drop_takeWhile (fun x => x != ']') rest]
      rw [← htdef, heq]
    have e2 : rest2 = u ++ (')' :: tail) := by
      conv_lhs => rw [take_drop_takeWhile (fun x => x != ')') rest2]
      rw [← hudef, heq2]
    refine ⟨t, u, tail, hr.symm, ?_, hlen.symm⟩
    rw [e1, e2]
  · contradiction

theorem tryBoldAt_spec {cs : List Char} {len : Nat} {r : InlineRun}
    (h : tryBoldAt cs = some (len, r)) :
    ∃ t tail, r = .bold (String.mk t)
      ∧ cs = '*' :: '*' :: (t ++ '*' :: '*' :: tail)
      ∧ len = t.length + 4 := by
  unfold tryBoldAt at h
  split at h
  · rename_i c1 c2 rest
    split_ifs at h with hc h0
    all_goals try contradiction
    obtain ⟨hc1, hc2⟩ := hc
    subst hc1 hc2
    split at h
    all_goals try contradiction
    rename_i d1 d2 tail heq
    split_ifs at h with hd
    all_goals try contradiction
    obtain ⟨hd1, hd2⟩ := hd
    subst hd1 hd2
    simp only [Option.some.injEq, Prod.mk.injEq] at h
    obtain ⟨hlen, hr⟩ := h
    set t := rest.takeWhile (fun x => x != '*') with htdef
    have e1 : rest = t ++ ('*' :: '*' :: tail) := by
      conv_lhs => rw [take_drop_takeWhile (fun x => x != '*') rest]
      rw [← htdef, heq]
    refine ⟨t, tail, hr.symm, ?_, hlen.symm⟩
    rw [e1]
  · contradiction

theorem tryItalicAt_spec {cs : List Char} {len : Nat} {r : InlineRun}
    (h : tryItalicAt cs = some (len, r)) :
    ∃ t tail, r = .italic (String.mk t)
      ∧ cs = '*' :: (t ++ '*' :: tail)
      ∧ len = t.length + 2 := by
  unfold tryItalicAt at h
  split at h
  · rename_i c rest
    split_ifs at h with hc h0
    all_goals try contradiction
    subst hc
    split at h
    all_goals try contradiction
    rename_i d tail heq
    split_ifs at h with hd
    all_goals try contradiction
    subst hd
    simp only [Option.some.injEq, Prod.mk.injEq] at h
    obtain ⟨hlen, hr⟩ := h
    set t := rest.takeWhile (fun x => x != '*') with htdef
    have e1 : rest = t ++ ('*' :: tail) := by
      conv_lhs => rw [take_drop_takeWhile (fun x => x != '*') rest]
      rw [← htdef, heq]
    refine ⟨t, tail, hr.symm, ?_, hlen.symm⟩
    rw [e1]
  · contradiction

/-- The selected match's span: the input decomposes as the text before the
match, the matched span (the run's delimiters re-wrapped), and the text
after it. -/
theorem nextMatch_render {cs : List Char} {s len : Nat} {r : InlineRun}
    (h : nextMatch cs = some (s, len, r)) :
    cs = cs.take s ++ (renderRun r).data ++ cs.drop (s + len)
      ∧ len = (renderRun r).data.length := by
  have hdecomp : ∃ tail, cs.drop s = (renderRun r).data ++ tail
      ∧ len = (renderRun r).data.length := by
    rcases nextMatch_cases h with h' | h' | h'
    · obtain ⟨t, u, tail, hr, hcs, hlen⟩ := tryLinkAt_spec (searchPat_spec h')
      subst hr
      refine ⟨tail, ?_, ?_⟩
      · rw [hcs]
        simp [renderRun, String.data_append]
      · simp [renderRun, String.data_append]
        omega
    · obtain ⟨t, tail, hr, hcs, hlen⟩ := tryBoldAt_spec (searchPat_spec h')
      subst hr
      refine ⟨tail, ?_, ?_⟩
      · rw [hcs]
        simp [renderRun, String.data_append]
      · simp [renderRun, String.data_append]
        omega
    · obtain ⟨t, tail, hr, hcs, hlen⟩ := tryItalicAt_spec (searchPat_spec h')
      subst hr
      refine ⟨tail, ?_, ?_⟩
      · rw [hcs]
        simp [renderRun, String.data_append]
      · simp [renderRun, String.data_append]
        omega
  obtain ⟨tail, hshape, hlen⟩ := hdecomp
  refine ⟨?_, hlen⟩
  have htail : cs.drop (s + len) = tail := by
    have : cs.drop (s + len) = (cs.drop s).drop len := (List.drop_drop len s cs).symm
    rw [this, hshape, hlen, List.drop_left]
  conv_lhs => rw [← List.take_append_drop s cs]
  rw [htail, hshape, List.append_assoc]

theorem parseAux_eq_none {cs : List Char} (h : nextMatch cs = none) :
    parseRichTextAux cs = if cs.isEmpty then [] else [.plain (String.mk cs)] := by
  rw [parseRichTextAux]
  split
  · rfl
  · rename_i s len r heq
    rw [h] at heq
    exact absurd heq (by simp)

theorem parseAux_eq_some {cs : List Char} {s len : Nat} {r : InlineRun}
    (h : nextMatch cs = some (s, len, r)) :
    parseRichTextAux cs = (if 0 < s then [InlineRun.plain (String.mk (cs.take s))] else []) ++
      r :: parseRichTextAux (cs.drop (s + len)) := by
  rw [parseRichTextAux]
  split
  · rename_i heq
    rw [h] at heq
    exact absurd heq (by simp)
  · rename_i s' len' r' heq
    rw [h] at heq
    simp only [Option.some.injEq, Prod.mk.injEq] at heq
    obtain ⟨h1, h2, h3⟩ := heq
    subst h1 h2 h3
    rfl

theorem stripInline_eq_none {cs : List Char} (h : nextMatch cs = none) :
    stripInline cs = cs := by
  rw [stripInline]
  split
  · rfl
  · rename_i s len r heq
    rw [h] at heq
    exact absurd heq (by simp)

theorem stripInline_eq_some {cs : List Char} {s len : Nat} {r : InlineRun}
    (h : nextMatch cs = some (s, len, r)) :
    stripInline cs = cs.take s ++ (inlineText r).data ++ stripInline (cs.drop (s + len)) := by
  rw [stripInline]
  split
  · rename_i heq
    rw [h] at heq
    exact absurd heq (by simp)
  · rename_i s' len' r' heq
    rw [h] at heq
    simp only [Option.some.injEq, Prod.mk.injEq] at heq
    obtain ⟨h1, h2, h3⟩ := heq
    subst h1 h2 h3
    rfl

theorem parseAux_roundtrip : ∀ (n : Nat) (cs : List Char), cs.length ≤ n →
    ((parseRichTextAux cs).map (fun r => (renderRun r).data)).flatten = cs
    ∧ ((parseRichTextAux cs).map (fun r => (inlineText r).data)).flatten = stripInline cs := by
  intro n
  induction n with
  | zero =>
    intro cs hcs
    have hnil : cs = [] := List.length_eq_zero.mp (Nat.le_zero.mp hcs)
    subst hnil
    rw [parseAux_eq_none nextMatch_nil, stripInline_eq_none nextMatch_nil]
    simp
  | succ n ih =>
    intro cs hcs
    cases hnm : nextMatch cs with
    | none =>
      rw [parseAux_eq_none hnm, stripInline_eq_none hnm]
      cases cs <;> simp [renderRun, inlineText]
    | some x =>
      obtain ⟨s, len, r⟩ := x
      have hpos := nextMatch_pos hnm
      have hne : cs ≠ [] := by
        intro hcs0
        rw [hcs0, nextMatch_nil] at hnm
        exact Option.noConfusion hnm
      have hlen0 : 0 < cs.length := List.length_pos.mpr hne
      have hrec := ih (cs.drop (s + len)) (by simp only [List.length_drop]; omega)
      obtain ⟨hshape, hlenr⟩ := nextMatch_render hnm
      rw [parseAux_eq_some hnm, stripInline_eq_some hnm]
      constructor
      · rw [List.map_append, List.flatten_append, List.map_cons, List.flatten_cons, hrec.1]
        conv_rhs => rw [hshape]
        by_cases hs : 0 < s
        · rw [if_pos hs]
          simp [renderRun, List.append_assoc]
        · rw [if_neg hs]
          have hs0 : s = 0 := by omega
          subst hs0
          simp
      · rw [List.map_append, List.flatten_append, List.map_cons, List.flatten_cons, hrec.2]
        by_cases hs : 0 < s
        · rw [if_pos hs]
          simp [inlineText, List.append_assoc]
        · rw [if_neg hs]
          have hs0 : s = 0 := by omega
          subst hs0
          simp

/-- C7: for every line the inline parser compiles (as a paragraph block's
runs), (i) concatenating the text of all runs yields exactly the line with
the markup delimiters removed — `stripInline`, the spec-modelled stripper
that replaces each matched span by its inner text (a link by its link text)
and keeps unmatched text verbatim — and (ii) re-wrapping every run in its
delimiters and concatenating reproduces the line itself, so the runs are a
lossless decomposition. -/
theorem claim_C7 (line : String) :
    String.mk (((parse_rich_text_with_links line).map (fun r => (inlineText r).data)).flatten)
      = String.mk (stripInline line.data)
    ∧ String.mk (((parse_rich_text_with_links line).map (fun r => (renderRun r).data)).flatten)
      = line := by
  have haux := parseAux_roundtrip line.data.length line.data le_rfl
  unfold parse_rich_text_with_links
  cases hpr : parseRichTextAux line.data with
  | nil =>
    rw [hpr] at haux
    simp only [List.map_nil, List.flatten_nil] at haux
    obtain ⟨hrender, hstrip⟩ := haux
    constructor
    · simp only [List.map_cons, List.map_nil, List.flatten_cons, List.flatten_nil,
        List.append_nil, inlineText]
      rw [← hstrip, ← hrender]
    · cases line with
      | mk data =>
        simp only [List.map_cons, List.map_nil, List.flatten_cons, List.flatten_nil,
          List.append_nil, renderRun]
  | cons a rs =>
    rw [hpr] at haux
    exact ⟨congrArg String.mk haux.2, (congrArg String.mk haux.1).trans (by cases line; rfl)⟩

set_option maxRecDepth 100000 in
/-- C6: (i) the scenario — compiling
`"**Bold** and *italic* and [link](http://x)"` yields one paragraph block
with exactly the runs bold "Bold", plain " and ", italic "italic",
plain " and ", link("link","http://x"); (ii) in general the scanner always
selects a nearest match (its start is at most every pattern's match start)
and on equal starts prefers link over bold over italic, so a bold span's
interior is never emitted as an italic run. -/
theorem claim_C6 :
    convert_markdown_to_blocks "**Bold** and *italic* and [link](http://x)"
      = [.paragraph [.bold "Bold", .plain " and ", .italic "italic", .plain " and ",
          .link "link" "http://x"]]
    ∧ (∀ (cs : List Char) (x : Nat × Nat × InlineRun), nextMatch cs = some x →
        ((∀ y, searchPat tryLinkAt cs = some y → x.1 ≤ y.1)
          ∧ (∀ y, searchPat tryBoldAt cs = some y → x.1 ≤ y.1)
          ∧ (∀ y, searchPat tryItalicAt cs = some y → x.1 ≤ y.1))
        ∧ (searchPat tryLinkAt cs = some x
          ∨ (searchPat tryBoldAt cs = some x
              ∧ ∀ y, searchPat tryLinkAt cs = some y → x.1 < y.1)
          ∨ (searchPat tryItalicAt cs = some x
              ∧ (∀ y, searchPat tryLinkAt cs = some y → x.1 < y.1)
              ∧ (∀ y, searchPat tryBoldAt cs = some y → x.1 < y.1)))) := by
  constructor
  · simp +decide [convert_markdown_to_blocks, convertLine, splitOnCharAux, trimChars,
      isPySpace, parse_rich_text_with_links, parseRichTextAux, nextMatch, pickNearer,
      searchPat, tryLinkAt, tryBoldAt, tryItalicAt, numberedContent, List.takeWhile]
  · intro cs x h
    exact ⟨(nextMatch_full h).2, (nextMatch_full h).1⟩

theorem claim_C6_witness :
    nextMatch "**b** [l](u)".data = some (0, 5, .bold "b") ∧ (0 : Nat) ≤ 6 := by
  refine ⟨?_, ?_⟩
  · simp +decide [nextMatch, pickNearer, searchPat, tryLinkAt, tryBoldAt, tryItalicAt,
      List.takeWhile]
  · exact ((claim_C6.2 "**b** [l](u)".data (0, 5, .bold "b")
      (by simp +decide [nextMatch, pickNearer, searchPat, tryLinkAt, tryBoldAt,
        tryItalicAt, List.takeWhile])).1.1 (6, 6, .link "l" "u")
      (by simp +decide [searchPat, tryLinkAt, tryBoldAt, tryItalicAt, List.takeWhile]))
